import Mathlib

/-!
Verification of the ExecuTorch `Module` orchestrator
(`src/extension/module/module.cpp`) and the portable variance kernel
(`src/kernels/portable/cpu/op_var.cpp`), shallowly embedded in Lean 4.

The orchestrator's external collaborators (data loaders, the parsed
`Program`, the materialized `Method`) live outside the two source files,
so their behavior is modelled from the specification as explicit oracles
(an `Env` of per-call outcomes and a `MethodSpec` of per-method behavior);
the control flow of `module.cpp` itself is translated literally.
State-changing operations additionally emit a list of ghost `Event`s
recording which externally visible stages (accessor construction, program
parse, metadata lookup, buffer allocation, materialization, holder
insertion) actually ran, so that idempotence claims about "at most once"
can be stated over call sequences.
-/

namespace ET

/-- Error codes, following the spec's error taxonomy (§7); `other n` stands
for any further error value an external collaborator may produce, so that
verbatim propagation is meaningful. -/
inductive ErrCode where
  | accessorConstruction
  | programParse
  | methodNotFound
  | metadata
  | memoryAllocation
  | methodMaterialization
  | inputBinding
  | execution
  | outputRetrieval
  | invalidArgument
  | internal
  | other (n : Nat)
deriving DecidableEq, Repr

/-- `Error` as in the runtime: `Ok` or an error code. -/
inductive Error where
  | ok
  | err (c : ErrCode)
deriving DecidableEq, Repr

/-- Runtime values (`EValue`) are opaque to the orchestrator; model them as
tags. -/
abbrev EValue := Nat

/-- The four-way load-mode selector of the `Module` file constructor. -/
inductive LoadMode where
  | File
  | Mmap
  | MmapUseMlock
  | MmapUseMlockIgnoreErrors
deriving DecidableEq, Repr

/-- Modelled from the spec: per-method behavior of the external parsed
`Program` and of a `Method` materialized from it (`Program::method_meta`,
`Program::load_method`, `Method::set_input`, `Method::execute`,
`Method::get_outputs` are not under src/). Metadata: the ordered planned
buffer-size list and the declared input/output arities. Behavior oracles:
whether binding a value to an in-range input slot succeeds, whether a run
fails, the output value produced in each output slot as a function of the
bound inputs, and whether collecting outputs fails. -/
structure MethodSpec where
  plannedBufferSizes : List Nat
  inputArity : Nat
  outputArity : Nat
  bindOk : Nat → EValue → Bool
  runErr : Option ErrCode
  outVal : List (Option EValue) → Nat → EValue
  getOutputsErr : Option ErrCode

/-- Metadata descriptor returned by `method_meta`. -/
structure MethodMeta where
  plannedBufferSizes : List Nat
  inputArity : Nat
  outputArity : Nat

/-- Modelled from the spec: the mutable state of a materialized `Method` —
its behavior `spec`, the current contents of its input slots, and the
output-data-pointer overrides installed by `set_output_data_ptr`. -/
structure MethodState where
  spec : MethodSpec
  inputs : List (Option EValue)
  outputPtrs : List (Option (Nat × Nat))

/-- A freshly materialized method: no input bound, no output override. -/
def MethodState.fresh (spec : MethodSpec) : MethodState :=
  { spec := spec
    inputs := List.replicate spec.inputArity none
    outputPtrs := List.replicate spec.outputArity none }

/-- Modelled from the spec: `Method::set_input` binds a value to its
ordinal slot `0..K-1`; an out-of-range index or a failed validation of the
value against the slot is an `InputBindingError` and leaves the slots
unchanged. -/
def MethodState.set_input (ms : MethodState) (v : EValue) (idx : Nat) :
    Error × MethodState :=
  if idx < ms.spec.inputArity then
    if ms.spec.bindOk idx v then
      (Error.ok, { ms with inputs := ms.inputs.set idx (some v) })
    else (Error.err ErrCode.inputBinding, ms)
  else (Error.err ErrCode.inputBinding, ms)

/-- Modelled from the spec: `Method::set_output_data_ptr` rebinds the
planned output slot at `idx` to the given external data pointer and byte
length; an out-of-range index fails. -/
def MethodState.set_output_data_ptr (ms : MethodState) (ptr nbytes idx : Nat) :
    Error × MethodState :=
  if idx < ms.spec.outputArity then
    (Error.ok, { ms with outputPtrs := ms.outputPtrs.set idx (some (ptr, nbytes)) })
  else (Error.err ErrCode.invalidArgument, ms)

/-- A `MethodHolder` as in `module.h`: the allocated planned buffers (each
recorded by its size; contents are unspecified), the spans over them, the
span list handed to the `HierarchicalAllocator`, and the materialized
method. -/
structure MethodHolder where
  planned_buffers : List Nat
  planned_spans : List Nat
  planned_memory : List Nat
  method : MethodState

/-- Modelled from the spec: the parsed `Program` — an ordered list of
method names with their behavior. `num_methods`, `get_method_name` and
`method_meta` read it. -/
structure ProgramSpec where
  methods : List (String × MethodSpec)

/-- `Program::get_method_name(index)` for an in-range index. -/
def ProgramSpec.nameAt (p : ProgramSpec) (i : Nat) : String :=
  match p.methods.get? i with
  | some nm => nm.1
  | none => ""

/-- `Program::method_meta(name)`: metadata lookup by name, failing when the
name is unknown. -/
def ProgramSpec.lookup (p : ProgramSpec) (name : String) : Option MethodSpec :=
  p.methods.lookup name

/-- Modelled from the spec: per-call outcomes of the external collaborators
invoked during a given call — whether constructing the storage accessor for
a mode succeeds, the outcome of parsing (`Program::load`), and whether
materialization (`Program::load_method`) fails transiently for a name. -/
structure Env where
  loaderOutcome : LoadMode → Option ErrCode
  parsed : Except ErrCode ProgramSpec
  materializeErr : String → Option ErrCode

/-- Ghost events recording which externally visible stages ran. -/
inductive Event where
  | loadCalled
  | accessorConstructed
  | accessorConstructionFailed
  | programParsed
  | parseFailed
  | metadataLookup (name : String)
  | bufferAllocated (size : Nat)
  | materialized (name : String)
  | materializeFailed (name : String)
  | holderCreated (name : String)
deriving DecidableEq, Repr

/-- The orchestrator's state: the load-mode selector, whether a data loader
is currently held (`data_loader_ != nullptr`), the parsed program if any,
and the name-keyed method cache. -/
structure Module where
  loadMode : LoadMode
  dataLoader : Bool
  program : Option ProgramSpec
  methods : List (String × MethodHolder)

/-- `Module::Module(file_path, load_mode, ...)`: fresh instance, no loader,
no program, empty cache. -/
def Module.fromFile (mode : LoadMode) : Module :=
  { loadMode := mode, dataLoader := false, program := none, methods := [] }

/-- `Module::Module(data_loader, ...)`: an already-constructed accessor is
injected. -/
def Module.fromLoader (mode : LoadMode) : Module :=
  { loadMode := mode, dataLoader := true, program := none, methods := [] }

/-- `Module::Module(program, ...)`: an already-materialized shared program
is injected; accessor construction and parsing are skipped entirely. -/
def Module.fromProgram (p : ProgramSpec) : Module :=
  { loadMode := LoadMode.File, dataLoader := false, program := some p,
    methods := [] }

/-- `Module::is_loaded`: true iff a program is set. -/
def Module.is_loaded (m : Module) : Bool :=
  m.program.isSome

/-- `Module::is_method_loaded`: true iff the cache holds an entry for the
name. -/
def Module.is_method_loaded (m : Module) (name : String) : Bool :=
  (m.methods.lookup name).isSome

/-- `Module::load(verification)` (module.cpp:82-114): a no-op when a
program is already set; otherwise constructs the data loader per the load
mode when none is held (propagating a construction failure verbatim), then
parses the program (propagating a parse failure verbatim); on success the
loader is moved into the program's deleter (`data_loader_` becomes null)
and the program field is set. Emits one `loadCalled` event per call plus
events for the stages that ran. -/
def Module.load (env : Env) (m : Module) : Error × Module × List Event :=
  if m.is_loaded then (Error.ok, m, [Event.loadCalled])
  else
    match (if m.dataLoader then none else env.loaderOutcome m.loadMode) with
    | some c =>
        (Error.err c, m, [Event.loadCalled, Event.accessorConstructionFailed])
    | none =>
        match env.parsed with
        | Except.error c =>
            (Error.err c, { m with dataLoader := true },
              (if m.dataLoader then [Event.loadCalled]
                else [Event.loadCalled, Event.accessorConstructed]) ++
                [Event.parseFailed])
        | Except.ok p =>
            (Error.ok, { m with dataLoader := false, program := some p },
              (if m.dataLoader then [Event.loadCalled]
                else [Event.loadCalled, Event.accessorConstructed]) ++
                [Event.programParsed])

/-- `Module::method_names` (module.cpp:120-130): forces `load`, then
enumerates every method by index `0..num_methods-1` into a set (modelled as
a duplicate-free insertion into a list). -/
def insertName (acc : List String) (s : String) : List String :=
  if s ∈ acc then acc else acc ++ [s]

/-- The enumeration loop of `method_names`. -/
def collectNames (p : ProgramSpec) : List String :=
  (List.range p.methods.length).foldl (fun acc i => insertName acc (p.nameAt i)) []

/-- `Module::method_names` (module.cpp:120-130). -/
def Module.method_names (env : Env) (m : Module) :
    Except ErrCode (List String) × Module × List Event :=
  match Module.load env m with
  | (Error.err c, m1, ev) => (Except.error c, m1, ev)
  | (Error.ok, m1, ev) =>
      match m1.program with
      | none => (Except.error ErrCode.internal, m1, ev)
      | some p => (Except.ok (collectNames p), m1, ev)

/-- The planned-buffer loop of `load_method` (module.cpp:144-150): one
buffer per plan entry at its declared size, and a span over each. -/
def allocPlanned (sizes : List Nat) (count : Nat) : List Nat × List Nat :=
  (List.range count).foldl
    (fun acc index =>
      let buffer_size := sizes.getD index 0
      (acc.1 ++ [buffer_size], acc.2 ++ [buffer_size]))
    ([], [])

/-- The `MethodHolder` built by a successful `load_method` (module.cpp:
136-161): planned buffers and spans from the plan loop, the span list
handed to the `HierarchicalAllocator`, and the freshly materialized
method. -/
def freshHolder (spec : MethodSpec) : MethodHolder :=
  { planned_buffers :=
      (allocPlanned spec.plannedBufferSizes spec.plannedBufferSizes.length).1
    planned_spans :=
      (allocPlanned spec.plannedBufferSizes spec.plannedBufferSizes.length).2
    planned_memory :=
      (allocPlanned spec.plannedBufferSizes spec.plannedBufferSizes.length).2
    method := MethodState.fresh spec }

/-- `Module::load_method(name)` (module.cpp:132-165): a no-op when a holder
exists for the name; otherwise forces `load`, looks up the method metadata
(failing with `methodNotFound` when the name is unknown), allocates one
planned buffer per plan entry at its declared size, builds the span list
handed to the `HierarchicalAllocator`, materializes the method (failure per
the per-call oracle, propagated verbatim), and only then inserts the
holder. -/
def Module.load_method (env : Env) (name : String) (m : Module) :
    Error × Module × List Event :=
  if m.is_method_loaded name then (Error.ok, m, [])
  else
    match Module.load env m with
    | (Error.err c, m1, ev) => (Error.err c, m1, ev)
    | (Error.ok, m1, ev) =>
        match m1.program with
        | none => (Error.err ErrCode.internal, m1, ev)
        | some p =>
            match p.lookup name with
            | none =>
                (Error.err ErrCode.methodNotFound, m1,
                  ev ++ [Event.metadataLookup name])
            | some spec =>
                match env.materializeErr name with
                | some c =>
                    (Error.err c, m1,
                      ev ++ [Event.metadataLookup name] ++
                        (allocPlanned spec.plannedBufferSizes
                            spec.plannedBufferSizes.length).1.map
                          Event.bufferAllocated ++
                        [Event.materializeFailed name])
                | none =>
                    (Error.ok,
                      { m1 with
                        methods := (name, freshHolder spec) :: m1.methods },
                      ev ++ [Event.metadataLookup name] ++
                        (allocPlanned spec.plannedBufferSizes
                            spec.plannedBufferSizes.length).1.map
                          Event.bufferAllocated ++
                        [Event.materialized name, Event.holderCreated name])

/-- Replace the value of the first entry with the given key. -/
def updateEntry (n : String) (ms : MethodState) :
    List (String × MethodHolder) → List (String × MethodHolder)
  | [] => []
  | (k, h) :: tl =>
      if k = n then (k, { h with method := ms }) :: tl
      else (k, h) :: updateEntry n ms tl

/-- Replace the method state stored in the cache entry for `name` (binding
through the reference `auto& method = methods_.at(name).method`). -/
def Module.updateMethod (m : Module) (name : String) (ms : MethodState) : Module :=
  { m with methods := updateEntry name ms m.methods }

/-- The input-binding loop of `execute` (module.cpp:182-184): bind each
supplied value to its ordinal slot in order, aborting at the first failure
with that failure; earlier binds are retained. -/
def bindLoop (ms : MethodState) : List EValue → Nat → Error × MethodState
  | [], _ => (Error.ok, ms)
  | v :: rest, idx =>
      match ms.set_input v idx with
      | (Error.ok, ms1) => bindLoop ms1 rest (idx + 1)
      | (Error.err c, ms1) => (Error.err c, ms1)

/-- `Module::execute(name, input)` (module.cpp:176-193): forces
`load_method` (propagating its failure), binds each supplied input in
order (propagating the first binding failure), runs the method
(propagating its failure), then allocates a fresh output sequence sized to
the declared output arity and fills it from the method (propagating a
collection failure). -/
def Module.execute (env : Env) (name : String) (input : List EValue)
    (m : Module) : Except ErrCode (List EValue) × Module × List Event :=
  match Module.load_method env name m with
  | (Error.err c, m1, ev) => (Except.error c, m1, ev)
  | (Error.ok, m1, ev) =>
      match m1.methods.lookup name with
      | none => (Except.error ErrCode.internal, m1, ev)
      | some holder =>
          match bindLoop holder.method input 0 with
          | (Error.err c, ms1) => (Except.error c, m1.updateMethod name ms1, ev)
          | (Error.ok, ms1) =>
              match ms1.spec.runErr with
              | some c => (Except.error c, m1.updateMethod name ms1, ev)
              | none =>
                  match ms1.spec.getOutputsErr with
                  | some c => (Except.error c, m1.updateMethod name ms1, ev)
                  | none =>
                      (Except.ok
                        ((List.range ms1.spec.outputArity).map
                          (ms1.spec.outVal ms1.inputs)),
                        m1.updateMethod name ms1, ev)

/-- `Module::method_meta(name)` (module.cpp:171-174): forces `load_method`,
then returns the metadata descriptor of the cached method. -/
def Module.method_meta (env : Env) (name : String) (m : Module) :
    Except ErrCode MethodMeta × Module × List Event :=
  match Module.load_method env name m with
  | (Error.err c, m1, ev) => (Except.error c, m1, ev)
  | (Error.ok, m1, ev) =>
      match m1.methods.lookup name with
      | none => (Except.error ErrCode.internal, m1, ev)
      | some holder =>
          (Except.ok
            { plannedBufferSizes := holder.method.spec.plannedBufferSizes
              inputArity := holder.method.spec.inputArity
              outputArity := holder.method.spec.outputArity }, m1, ev)

/-- An externally supplied tensor: its backing data pointer (opaque id) and
byte length. -/
structure Tensor where
  dataPtr : Nat
  nbytes : Nat

/-- `Module::set_output_data_ptr(tensor, index)` (module.cpp:195-200):
forces `load_method("forward")` (propagating its failure), then rebinds the
"forward" method's output slot at the index to the tensor's data pointer
and byte length. -/
def Module.set_output_data_ptr (env : Env) (t : Tensor) (idx : Nat)
    (m : Module) : Error × Module × List Event :=
  match Module.load_method env "forward" m with
  | (Error.err c, m1, ev) => (Error.err c, m1, ev)
  | (Error.ok, m1, ev) =>
      match m1.methods.lookup "forward" with
      | none => (Error.err ErrCode.internal, m1, ev)
      | some holder =>
          match holder.method.set_output_data_ptr t.dataPtr t.nbytes idx with
          | (r, ms1) => (r, m1.updateMethod "forward" ms1, ev)

/-- One public operation on the orchestrator, with the external outcomes of
that call. -/
inductive Op where
  | load (env : Env)
  | loadMethod (env : Env) (name : String)
  | methodNames (env : Env)
  | methodMeta (env : Env) (name : String)
  | execute (env : Env) (name : String) (input : List EValue)
  | setOutput (env : Env) (t : Tensor) (idx : Nat)

/-- Run one operation, keeping the state and emitted events. -/
def Module.stepOp (m : Module) : Op → Module × List Event
  | Op.load env => ((Module.load env m).2.1, (Module.load env m).2.2)
  | Op.loadMethod env name =>
      ((Module.load_method env name m).2.1, (Module.load_method env name m).2.2)
  | Op.methodNames env =>
      ((Module.method_names env m).2.1, (Module.method_names env m).2.2)
  | Op.methodMeta env name =>
      ((Module.method_meta env name m).2.1, (Module.method_meta env name m).2.2)
  | Op.execute env name input =>
      ((Module.execute env name input m).2.1,
        (Module.execute env name input m).2.2)
  | Op.setOutput env t idx =>
      ((Module.set_output_data_ptr env t idx m).2.1,
        (Module.set_output_data_ptr env t idx m).2.2)

/-- Run a sequence of operations, concatenating the emitted events. -/
def Module.runOps (m : Module) : List Op → Module × List Event
  | [] => (m, [])
  | op :: rest =>
      ((Module.runOps (m.stepOp op).1 rest).1,
        (m.stepOp op).2 ++ (Module.runOps (m.stepOp op).1 rest).2)

/-! ### The portable variance kernel `var_out` (op_var.cpp:39-88)

Float values are modelled as exact rationals, with `none` standing for the
NaN written by the guarded branch. The reduction traversal
(`map_reduce_over_dim_list`, external to src/) is modelled from the spec as
the list of input elements reduced for each output cell. -/

/-- The `size_t` denominator `unbiased ? num - 1 : num` (op_var.cpp:57);
subtraction wraps modulo `2^64`. -/
def varDenominator (unbiased : Bool) (num : Nat) : Nat :=
  if unbiased then (num + (2 ^ 64 - 1)) % 2 ^ 64 else num

/-- The guard of op_var.cpp:58: `num == 0 || denominator == 0`. -/
def varGuard (unbiased : Bool) (num : Nat) : Bool :=
  num == 0 || varDenominator unbiased num == 0

/-- The per-cell output of `var_out`'s inner loops (op_var.cpp:56-83):
when the guard holds, every output cell is set to NaN; otherwise each cell
gets `sum((v - mean)^2) / denominator` with `mean = sum(v) / num`. -/
def var_out_values (unbiased : Bool) (num : Nat) (numel : Nat)
    (elems : Nat → List ℚ) : List (Option ℚ) :=
  if varGuard unbiased num then
    (List.range numel).map (fun _ => none)
  else
    (List.range numel).map (fun out_ix =>
      some
        (((elems out_ix).map (fun v =>
            (v - ((elems out_ix).map id).sum / (num : ℚ)) *
              (v - ((elems out_ix).map id).sum / (num : ℚ)))).sum /
          (varDenominator unbiased num : ℚ)))

/-! ### Ghost-event counting and potentials for at-most-once claims -/

/-- Number of occurrences of an event in a trace. -/
def countEv (e : Event) : List Event → Nat
  | [] => 0
  | x :: r => (if x = e then 1 else 0) + countEv e r

/-- Potential bounding future `accessorConstructed` events: zero once a
loader is held or the program is set. -/
def accessorPot (m : Module) : Nat :=
  if m.dataLoader || m.is_loaded then 0 else 1

/-- Potential bounding future `programParsed` events. -/
def parsePot (m : Module) : Nat :=
  if m.is_loaded then 0 else 1

/-- Potential bounding future `holderCreated name` events. -/
def holderPot (name : String) (m : Module) : Nat :=
  if m.is_method_loaded name then 0 else 1

/-- The offset of the first supplied input whose bind fails, mirroring the
loop of module.cpp:182-184 (`set_input` success depends only on the
method's fixed behavior, never on previously bound slots); `none` when
every supplied input binds. -/
def firstFail (spec : MethodSpec) : List EValue → Nat → Option Nat
  | [], _ => none
  | v :: rest, idx =>
      if idx < spec.inputArity then
        if spec.bindOk idx v then firstFail spec rest (idx + 1) else some idx
      else some idx

/-! ### Concrete fixtures used to evaluate the development -/

/-- A benign two-input method: every bind succeeds, the run and output
collection succeed, and every output slot yields `42`. -/
def wSpecF : MethodSpec :=
  { plannedBufferSizes := [128, 256], inputArity := 2, outputArity := 1,
    bindOk := fun _ _ => true, runErr := none,
    outVal := fun _ _ => 42, getOutputsErr := none }

/-- A three-input method whose bind succeeds only at slot 0. -/
def wSpecG : MethodSpec :=
  { plannedBufferSizes := [], inputArity := 3, outputArity := 2,
    bindOk := fun i _ => i == 0, runErr := none,
    outVal := fun _ _ => 0, getOutputsErr := none }

/-- A program with methods "f", "g" and "forward". -/
def wProg : ProgramSpec :=
  { methods := [("f", wSpecF), ("g", wSpecG), ("forward", wSpecF)] }

/-- An environment where every external step succeeds. -/
def wEnv : Env :=
  { loaderOutcome := fun _ => none, parsed := Except.ok wProg,
    materializeErr := fun _ => none }

/-- An environment where parsing the program fails. -/
def wEnvParseFail : Env :=
  { loaderOutcome := fun _ => none, parsed := Except.error (ErrCode.other 7),
    materializeErr := fun _ => none }

/-- A fresh file-backed orchestrator. -/
def wM0 : Module := Module.fromFile LoadMode.File

/-- The orchestrator after loading method "f". -/
def wLoaded : Module := (Module.load_method wEnv "f" wM0).2.1

/-! ### Basic lemmas about traces and `Module.load` -/

theorem countEv_append (e : Event) (l1 l2 : List Event) :
    countEv e (l1 ++ l2) = countEv e l1 + countEv e l2 := by
  induction l1 with
  | nil => simp [countEv]
  | cons x r ih => simp [countEv, ih]; omega

theorem load_loaded (env : Env) (m : Module) (h : m.is_loaded = true) :
    Module.load env m = (Error.ok, m, [Event.loadCalled]) := by
  simp [Module.load, h]

theorem load_methods_eq (env : Env) (m : Module) :
    (Module.load env m).2.1.methods = m.methods := by
  unfold Module.load
  split
  · rfl
  · split
    · rfl
    · split <;> rfl

theorem load_ok_isLoaded (env : Env) (m : Module) :
    (Module.load env m).1 = Error.ok → (Module.load env m).2.1.is_loaded = true := by
  unfold Module.load
  split
  · intro _; assumption
  · split
    · intro h; simp at h
    · split
      · intro h; simp at h
      · intro _; rfl

theorem load_count_loadCalled (env : Env) (m : Module) :
    countEv Event.loadCalled (Module.load env m).2.2 = 1 := by
  unfold Module.load
  split
  · simp [countEv]
  · split
    · simp [countEv]
    · split <;> split <;> simp [countEv_append, countEv]

theorem load_count_accessor (env : Env) (m : Module) :
    countEv Event.accessorConstructed (Module.load env m).2.2 +
      accessorPot (Module.load env m).2.1 ≤ accessorPot m := by
  unfold Module.load
  split
  · simp [countEv]
  · next hnl =>
    have hp : m.program.isSome = false := by
      simp [Module.is_loaded] at hnl; simp [hnl]
    split
    · simp [countEv]
    · split
      · next c heq =>
        rcases hdl : m.dataLoader with _ | _ <;>
          simp [countEv_append, countEv, accessorPot, Module.is_loaded, hdl, hp]
      · next p heq =>
        rcases hdl : m.dataLoader with _ | _ <;>
          simp [countEv_append, countEv, accessorPot, Module.is_loaded, hdl, hp]

theorem load_count_parse (env : Env) (m : Module) :
    countEv Event.programParsed (Module.load env m).2.2 +
      parsePot (Module.load env m).2.1 ≤ parsePot m := by
  unfold Module.load
  split
  · simp [countEv]
  · next hnl =>
    have hp : m.program.isSome = false := by
      simp [Module.is_loaded] at hnl; simp [hnl]
    split
    · simp [countEv, parsePot]
    · split
      · next c heq =>
        rcases hdl : m.dataLoader with _ | _ <;>
          simp [countEv_append, countEv, parsePot, Module.is_loaded, hdl, hp]
      · next p heq =>
        rcases hdl : m.dataLoader with _ | _ <;>
          simp [countEv_append, countEv, parsePot, Module.is_loaded, hdl, hp]

theorem load_count_holder (env : Env) (m : Module) (name : String) :
    countEv (Event.holderCreated name) (Module.load env m).2.2 = 0 := by
  unfold Module.load
  split
  · simp [countEv]
  · split
    · simp [countEv]
    · split <;> split <;> simp [countEv_append, countEv]

/-! ### Basic lemmas about `Module.load_method` -/

theorem countEv_bufferAllocated (e : Event) (sizes : List Nat)
    (h : ∀ s, Event.bufferAllocated s ≠ e) :
    countEv e (sizes.map Event.bufferAllocated) = 0 := by
  induction sizes with
  | nil => simp [countEv]
  | cons s r ih => simp [countEv, ih, h s]

theorem load_method_loaded (env : Env) (name : String) (m : Module)
    (h : m.is_method_loaded name = true) :
    Module.load_method env name m = (Error.ok, m, []) := by
  simp [Module.load_method, h]

/-- Case analysis of `load_method`: either a no-op on an already-loaded
name, or a failure that leaves the method cache untouched, or a success
that prepends exactly one fresh holder for the looked-up spec. -/
theorem load_method_spec (env : Env) (name : String) (m : Module) :
    (m.is_method_loaded name = true ∧
      Module.load_method env name m = (Error.ok, m, []))
    ∨ (m.is_method_loaded name = false ∧
        ((∃ c, (Module.load_method env name m).1 = Error.err c ∧
            (Module.load_method env name m).2.1.methods = m.methods)
         ∨ (∃ p spec,
              (Module.load env m).2.1.program = some p ∧
              p.lookup name = some spec ∧
              env.materializeErr name = none ∧
              (Module.load_method env name m).1 = Error.ok ∧
              (Module.load_method env name m).2.1.methods =
                (name, freshHolder spec) :: m.methods))) := by
  by_cases h : m.is_method_loaded name = true
  · exact Or.inl ⟨h, load_method_loaded env name m h⟩
  · refine Or.inr ⟨by simpa using h, ?_⟩
    unfold Module.load_method
    rw [if_neg h]
    split
    · next c m1 ev heq =>
      have hme : m1.methods = m.methods := by
        have := load_methods_eq env m; rw [heq] at this; exact this
      exact Or.inl ⟨c, rfl, hme⟩
    · next m1 ev heq =>
      have hme : m1.methods = m.methods := by
        have := load_methods_eq env m; rw [heq] at this; exact this
      split
      · exact Or.inl ⟨ErrCode.internal, rfl, hme⟩
      · next p hp =>
        split
        · exact Or.inl ⟨ErrCode.methodNotFound, rfl, hme⟩
        · next spec hs =>
          split
          · next c hmat => exact Or.inl ⟨c, rfl, hme⟩
          · next hmat =>
            refine Or.inr ⟨p, spec, ?_, hs, hmat, rfl, by
              show (name, freshHolder spec) :: m1.methods = _
              rw [hme]⟩
            rw [heq]; exact hp

theorem lookup_updateEntry_self (n : String) (ms : MethodState) :
    ∀ l : List (String × MethodHolder),
      List.lookup n (updateEntry n ms l) =
        (List.lookup n l).map (fun h => { h with method := ms })
  | [] => rfl
  | (k1, v1) :: tl => by
      by_cases h1 : k1 = n
      · subst h1
        rw [updateEntry, if_pos rfl, List.lookup, List.lookup, beq_self_eq_true]
        rfl
      · rw [updateEntry, if_neg h1, List.lookup, List.lookup]
        have hbe : (n == k1) = false := by
          rw [beq_eq_false_iff_ne]
          exact fun hcon => h1 hcon.symm
        rw [hbe]
        exact lookup_updateEntry_self n ms tl

theorem lookup_updateEntry_ne (n : String) (ms : MethodState) (k : String)
    (hk : k ≠ n) :
    ∀ l : List (String × MethodHolder),
      List.lookup k (updateEntry n ms l) = List.lookup k l
  | [] => rfl
  | (k1, v1) :: tl => by
      by_cases h1 : k1 = n
      · subst h1
        rw [updateEntry, if_pos rfl, List.lookup, List.lookup]
        have hbe : (k == k1) = false := by
          rw [beq_eq_false_iff_ne]
          exact hk
        rw [hbe]
      · rw [updateEntry, if_neg h1, List.lookup, List.lookup]
        cases hbe : (k == k1)
        · exact lookup_updateEntry_ne n ms k hk tl
        · rfl

theorem lookup_updateEntry_isSome (n : String) (ms : MethodState) (k : String)
    (l : List (String × MethodHolder)) :
    (List.lookup k (updateEntry n ms l)).isSome = (List.lookup k l).isSome := by
  by_cases hk : k = n
  · subst hk
    rw [lookup_updateEntry_self]
    cases List.lookup k l <;> rfl
  · rw [lookup_updateEntry_ne n ms k hk]

theorem countEv_buf_accessor (sizes : List Nat) :
    countEv Event.accessorConstructed (sizes.map Event.bufferAllocated) = 0 :=
  countEv_bufferAllocated _ _ (fun s => by simp)

theorem countEv_buf_parse (sizes : List Nat) :
    countEv Event.programParsed (sizes.map Event.bufferAllocated) = 0 :=
  countEv_bufferAllocated _ _ (fun s => by simp)

theorem countEv_buf_holder (name : String) (sizes : List Nat) :
    countEv (Event.holderCreated name) (sizes.map Event.bufferAllocated) = 0 :=
  countEv_bufferAllocated _ _ (fun s => by simp)

theorem load_method_count_accessor (env : Env) (name : String) (m : Module) :
    countEv Event.accessorConstructed (Module.load_method env name m).2.2 +
      accessorPot (Module.load_method env name m).2.1 ≤ accessorPot m := by
  unfold Module.load_method
  split
  · simp [countEv]
  · split
    · next c m1 ev heq =>
      have h := load_count_accessor env m; rw [heq] at h; exact h
    · next m1 ev heq =>
      have h := load_count_accessor env m; rw [heq] at h
      split
      · exact h
      · split
        · simpa [countEv_append, countEv] using h
        · split
          · simpa [countEv_append, countEv, countEv_buf_accessor] using h
          · simp only [countEv_append, countEv, countEv_buf_accessor]
            simp only [accessorPot, Module.is_loaded] at h ⊢
            simpa using h

theorem load_method_count_parse (env : Env) (name : String) (m : Module) :
    countEv Event.programParsed (Module.load_method env name m).2.2 +
      parsePot (Module.load_method env name m).2.1 ≤ parsePot m := by
  unfold Module.load_method
  split
  · simp [countEv]
  · split
    · next c m1 ev heq =>
      have h := load_count_parse env m; rw [heq] at h; exact h
    · next m1 ev heq =>
      have h := load_count_parse env m; rw [heq] at h
      split
      · exact h
      · split
        · simpa [countEv_append, countEv] using h
        · split
          · simpa [countEv_append, countEv, countEv_buf_parse] using h
          · simp only [countEv_append, countEv, countEv_buf_parse]
            simp only [parsePot, Module.is_loaded] at h ⊢
            simpa using h

theorem holderPot_congr {m1 m2 : Module} (name : String)
    (h : m1.methods = m2.methods) : holderPot name m1 = holderPot name m2 := by
  unfold holderPot Module.is_method_loaded
  rw [h]

theorem load_method_count_holder (env : Env) (name : String) (m : Module)
    (name' : String) :
    countEv (Event.holderCreated name') (Module.load_method env name m).2.2 +
      holderPot name' (Module.load_method env name m).2.1 ≤
      holderPot name' m := by
  unfold Module.load_method
  split
  · simp [countEv]
  · next hnm =>
    split
    · next c m1 ev heq =>
      have hc : countEv (Event.holderCreated name') ev = 0 := by
        have := load_count_holder env m name'; rw [heq] at this; exact this
      have hme : m1.methods = m.methods := by
        have := load_methods_eq env m; rw [heq] at this; exact this
      simp [countEv_append, countEv, hc, holderPot_congr name' hme]
    · next m1 ev heq =>
      have hc : countEv (Event.holderCreated name') ev = 0 := by
        have := load_count_holder env m name'; rw [heq] at this; exact this
      have hme : m1.methods = m.methods := by
        have := load_methods_eq env m; rw [heq] at this; exact this
      split
      · simp [countEv_append, countEv, hc, holderPot_congr name' hme]
      · next p hp =>
        split
        · simp [countEv_append, countEv, hc, holderPot_congr name' hme]
        · next spec hs =>
          split
          · simp [countEv_append, countEv, hc, countEv_buf_holder,
              holderPot_congr name' hme]
          · next hmx =>
            by_cases he : name = name'
            · subst he
              simp only [Module.is_method_loaded, Bool.not_eq_true] at hnm
              have hpot : holderPot name
                  { m1 with methods := (name, freshHolder spec) :: m1.methods } =
                  0 := by
                unfold holderPot Module.is_method_loaded
                rw [List.lookup, beq_self_eq_true]
                simp
              simp [countEv_append, countEv, hc, countEv_buf_holder, hpot,
                holderPot, Module.is_method_loaded, hnm]
            · have hpot : holderPot name'
                  { m1 with methods := (name, freshHolder spec) :: m1.methods } =
                  holderPot name' m := by
                unfold holderPot Module.is_method_loaded
                have hbe : (name' == name) = false := by
                  rw [beq_eq_false_iff_ne]
                  exact Ne.symm he
                rw [List.lookup, hbe, hme]
              simp [countEv_append, countEv, hc, countEv_buf_holder, hpot, he]

/-! ### State and event structure of the derived operations -/

theorem holderPot_updateMethod (k n : String) (ms : MethodState) (m : Module) :
    holderPot k (m.updateMethod n ms) = holderPot k m := by
  unfold holderPot Module.is_method_loaded Module.updateMethod
  rw [lookup_updateEntry_isSome]

theorem method_names_parts (env : Env) (m : Module) :
    (Module.method_names env m).2 = (Module.load env m).2 := by
  unfold Module.method_names
  split
  · next c m1 ev heq => rw [heq]
  · next m1 ev heq =>
    rw [heq]
    split <;> rfl

theorem execute_parts (env : Env) (name : String) (input : List EValue)
    (m : Module) :
    (Module.execute env name input m).2.2 =
      (Module.load_method env name m).2.2 ∧
    ((Module.execute env name input m).2.1 =
        (Module.load_method env name m).2.1 ∨
      ∃ ms, (Module.execute env name input m).2.1 =
        (Module.load_method env name m).2.1.updateMethod name ms) := by
  unfold Module.execute
  split
  · next c m1 ev heq => rw [heq]; exact ⟨rfl, Or.inl rfl⟩
  · next m1 ev heq =>
    rw [heq]
    split
    · exact ⟨rfl, Or.inl rfl⟩
    · next holder hl =>
      split
      · next c ms1 hb => exact ⟨rfl, Or.inr ⟨ms1, rfl⟩⟩
      · next ms1 hb =>
        split
        · next c hr => exact ⟨rfl, Or.inr ⟨ms1, rfl⟩⟩
        · split
          · next c hg => exact ⟨rfl, Or.inr ⟨ms1, rfl⟩⟩
          · exact ⟨rfl, Or.inr ⟨ms1, rfl⟩⟩

theorem method_meta_parts (env : Env) (name : String) (m : Module) :
    (Module.method_meta env name m).2 = (Module.load_method env name m).2 := by
  unfold Module.method_meta
  split
  · next c m1 ev heq => rw [heq]
  · next m1 ev heq =>
    rw [heq]
    split <;> rfl

theorem set_output_parts (env : Env) (t : Tensor) (idx : Nat) (m : Module) :
    (Module.set_output_data_ptr env t idx m).2.2 =
      (Module.load_method env "forward" m).2.2 ∧
    ((Module.set_output_data_ptr env t idx m).2.1 =
        (Module.load_method env "forward" m).2.1 ∨
      ∃ ms, (Module.set_output_data_ptr env t idx m).2.1 =
        (Module.load_method env "forward" m).2.1.updateMethod "forward" ms) := by
  unfold Module.set_output_data_ptr
  split
  · next c m1 ev heq => rw [heq]; exact ⟨rfl, Or.inl rfl⟩
  · next m1 ev heq =>
    rw [heq]
    split
    · exact ⟨rfl, Or.inl rfl⟩
    · next holder hl =>
      split
      · next r ms1 hso => exact ⟨rfl, Or.inr ⟨ms1, rfl⟩⟩

/-! ### Potential bounds for a step and for a run -/

theorem stepOp_count_accessor (m : Module) (op : Op) :
    countEv Event.accessorConstructed (m.stepOp op).2 +
      accessorPot (m.stepOp op).1 ≤ accessorPot m := by
  cases op with
  | load env => exact load_count_accessor env m
  | loadMethod env name => exact load_method_count_accessor env name m
  | methodNames env =>
    have h := method_names_parts env m
    show countEv _ (Module.method_names env m).2.2 +
      accessorPot (Module.method_names env m).2.1 ≤ _
    rw [congrArg Prod.snd h, congrArg Prod.fst h]
    exact load_count_accessor env m
  | methodMeta env name =>
    have h := method_meta_parts env name m
    show countEv _ (Module.method_meta env name m).2.2 +
      accessorPot (Module.method_meta env name m).2.1 ≤ _
    rw [congrArg Prod.snd h, congrArg Prod.fst h]
    exact load_method_count_accessor env name m
  | execute env name input =>
    rcases execute_parts env name input m with ⟨he, hs | ⟨ms, hs⟩⟩ <;>
      show countEv _ (Module.execute env name input m).2.2 +
        accessorPot (Module.execute env name input m).2.1 ≤ _ <;>
      rw [he, hs] <;>
      exact load_method_count_accessor env name m
  | setOutput env t idx =>
    rcases set_output_parts env t idx m with ⟨he, hs | ⟨ms, hs⟩⟩ <;>
      show countEv _ (Module.set_output_data_ptr env t idx m).2.2 +
        accessorPot (Module.set_output_data_ptr env t idx m).2.1 ≤ _ <;>
      rw [he, hs] <;>
      exact load_method_count_accessor env "forward" m

theorem stepOp_count_parse (m : Module) (op : Op) :
    countEv Event.programParsed (m.stepOp op).2 +
      parsePot (m.stepOp op).1 ≤ parsePot m := by
  cases op with
  | load env => exact load_count_parse env m
  | loadMethod env name => exact load_method_count_parse env name m
  | methodNames env =>
    have h := method_names_parts env m
    show countEv _ (Module.method_names env m).2.2 +
      parsePot (Module.method_names env m).2.1 ≤ _
    rw [congrArg Prod.snd h, congrArg Prod.fst h]
    exact load_count_parse env m
  | methodMeta env name =>
    have h := method_meta_parts env name m
    show countEv _ (Module.method_meta env name m).2.2 +
      parsePot (Module.method_meta env name m).2.1 ≤ _
    rw [congrArg Prod.snd h, congrArg Prod.fst h]
    exact load_method_count_parse env name m
  | execute env name input =>
    rcases execute_parts env name input m with ⟨he, hs | ⟨ms, hs⟩⟩ <;>
      show countEv _ (Module.execute env name input m).2.2 +
        parsePot (Module.execute env name input m).2.1 ≤ _ <;>
      rw [he, hs] <;>
      exact load_method_count_parse env name m
  | setOutput env t idx =>
    rcases set_output_parts env t idx m with ⟨he, hs | ⟨ms, hs⟩⟩ <;>
      show countEv _ (Module.set_output_data_ptr env t idx m).2.2 +
        parsePot (Module.set_output_data_ptr env t idx m).2.1 ≤ _ <;>
      rw [he, hs] <;>
      exact load_method_count_parse env "forward" m

theorem stepOp_count_holder (m : Module) (op : Op) (name' : String) :
    countEv (Event.holderCreated name') (m.stepOp op).2 +
      holderPot name' (m.stepOp op).1 ≤ holderPot name' m := by
  cases op with
  | load env =>
    have hc := load_count_holder env m name'
    have hp := holderPot_congr name' (load_methods_eq env m)
    show countEv _ (Module.load env m).2.2 +
      holderPot name' (Module.load env m).2.1 ≤ _
    rw [hc, hp]
    simp
  | loadMethod env name => exact load_method_count_holder env name m name'
  | methodNames env =>
    have h := method_names_parts env m
    have hc := load_count_holder env m name'
    have hp := holderPot_congr name' (load_methods_eq env m)
    show countEv _ (Module.method_names env m).2.2 +
      holderPot name' (Module.method_names env m).2.1 ≤ _
    rw [congrArg Prod.snd h, congrArg Prod.fst h, hc, hp]
    simp
  | methodMeta env name =>
    have h := method_meta_parts env name m
    show countEv _ (Module.method_meta env name m).2.2 +
      holderPot name' (Module.method_meta env name m).2.1 ≤ _
    rw [congrArg Prod.snd h, congrArg Prod.fst h]
    exact load_method_count_holder env name m name'
  | execute env name input =>
    rcases execute_parts env name input m with ⟨he, hs | ⟨ms, hs⟩⟩ <;>
      show countEv _ (Module.execute env name input m).2.2 +
        holderPot name' (Module.execute env name input m).2.1 ≤ _
    · rw [he, hs]
      exact load_method_count_holder env name m name'
    · rw [he, hs, holderPot_updateMethod]
      exact load_method_count_holder env name m name'
  | setOutput env t idx =>
    rcases set_output_parts env t idx m with ⟨he, hs | ⟨ms, hs⟩⟩ <;>
      show countEv _ (Module.set_output_data_ptr env t idx m).2.2 +
        holderPot name' (Module.set_output_data_ptr env t idx m).2.1 ≤ _
    · rw [he, hs]
      exact load_method_count_holder env "forward" m name'
    · rw [he, hs, holderPot_updateMethod]
      exact load_method_count_holder env "forward" m name'

theorem runOps_count (P : Module → Nat) (e : Event)
    (hstep : ∀ (m : Module) (op : Op),
      countEv e (m.stepOp op).2 + P (m.stepOp op).1 ≤ P m) :
    ∀ (ops : List Op) (m : Module),
      countEv e (m.runOps ops).2 + P (m.runOps ops).1 ≤ P m := by
  intro ops
  induction ops with
  | nil => intro m; simp [Module.runOps, countEv]
  | cons op rest ih =>
    intro m
    have h1 := hstep m op
    have h2 := ih (m.stepOp op).1
    unfold Module.runOps
    dsimp only
    rw [countEv_append]
    omega

/-! ### Characterization of the input-binding loop -/

theorem bindLoop_cons_ok (ms : MethodState) (v : EValue) (r : List EValue)
    (idx : Nat) (h1 : idx < ms.spec.inputArity)
    (h2 : ms.spec.bindOk idx v = true) :
    bindLoop ms (v :: r) idx =
      bindLoop { ms with inputs := ms.inputs.set idx (some v) } r (idx + 1) := by
  conv_lhs => rw [bindLoop]
  rw [MethodState.set_input, if_pos h1, if_pos h2]

theorem bindLoop_cons_fail (ms : MethodState) (v : EValue) (r : List EValue)
    (idx : Nat)
    (h : ¬(idx < ms.spec.inputArity ∧ ms.spec.bindOk idx v = true)) :
    bindLoop ms (v :: r) idx = (Error.err ErrCode.inputBinding, ms) := by
  unfold bindLoop MethodState.set_input
  by_cases h1 : idx < ms.spec.inputArity
  · rw [if_pos h1, if_neg (fun h2 => h ⟨h1, h2⟩)]
  · rw [if_neg h1]

theorem firstFail_cons_ok (spec : MethodSpec) (v : EValue) (r : List EValue)
    (idx : Nat) (h1 : idx < spec.inputArity) (h2 : spec.bindOk idx v = true) :
    firstFail spec (v :: r) idx = firstFail spec r (idx + 1) := by
  conv_lhs => rw [firstFail]
  rw [if_pos h1, if_pos h2]

theorem firstFail_cons_fail (spec : MethodSpec) (v : EValue) (r : List EValue)
    (idx : Nat) (h : ¬(idx < spec.inputArity ∧ spec.bindOk idx v = true)) :
    firstFail spec (v :: r) idx = some idx := by
  unfold firstFail
  by_cases h1 : idx < spec.inputArity
  · rw [if_pos h1, if_neg (fun h2 => h ⟨h1, h2⟩)]
  · rw [if_neg h1]

theorem firstFail_le (spec : MethodSpec) :
    ∀ (r : List EValue) (idx j : Nat), firstFail spec r idx = some j → idx ≤ j
  | [], idx, j => by intro h; cases h
  | v :: r, idx, j => by
      intro h
      by_cases h1 : idx < spec.inputArity ∧ spec.bindOk idx v = true
      · rw [firstFail_cons_ok spec v r idx h1.1 h1.2] at h
        have := firstFail_le spec r (idx + 1) j h
        omega
      · rw [firstFail_cons_fail spec v r idx h1] at h
        cases h
        exact Nat.le_refl idx

theorem firstFail_lt_length (spec : MethodSpec) :
    ∀ (r : List EValue) (idx j : Nat),
      firstFail spec r idx = some j → j < idx + r.length
  | [], idx, j => by intro h; cases h
  | v :: r, idx, j => by
      intro h
      by_cases h1 : idx < spec.inputArity ∧ spec.bindOk idx v = true
      · rw [firstFail_cons_ok spec v r idx h1.1 h1.2] at h
        have := firstFail_lt_length spec r (idx + 1) j h
        simp only [List.length_cons]
        omega
      · rw [firstFail_cons_fail spec v r idx h1] at h
        cases h
        simp only [List.length_cons]
        omega

theorem bindLoop_ok_iff :
    ∀ (r : List EValue) (idx : Nat) (ms : MethodState),
      ((bindLoop ms r idx).1 = Error.ok ↔ firstFail ms.spec r idx = none)
  | [], idx, ms => by simp [bindLoop, firstFail]
  | v :: r, idx, ms => by
      by_cases h1 : idx < ms.spec.inputArity ∧ ms.spec.bindOk idx v = true
      · rw [bindLoop_cons_ok ms v r idx h1.1 h1.2,
          firstFail_cons_ok ms.spec v r idx h1.1 h1.2]
        exact bindLoop_ok_iff r (idx + 1) _
      · rw [bindLoop_cons_fail ms v r idx h1,
          firstFail_cons_fail ms.spec v r idx h1]
        simp

/-- On the first bind failure the loop stops with an `InputBindingError`:
slots below the starting offset or at/after the failing offset keep their
previous contents, while the slots bound before the failing offset hold the
freshly supplied values — no rollback. -/
theorem bindLoop_fail :
    ∀ (r : List EValue) (idx j : Nat) (ms : MethodState),
      ms.inputs.length = ms.spec.inputArity →
      firstFail ms.spec r idx = some j →
      ∃ ms', bindLoop ms r idx = (Error.err ErrCode.inputBinding, ms') ∧
        ms'.spec = ms.spec ∧
        ms'.outputPtrs = ms.outputPtrs ∧
        ms'.inputs.length = ms.inputs.length ∧
        (∀ i, i < idx → ms'.inputs.get? i = ms.inputs.get? i) ∧
        (∀ i, j ≤ i → ms'.inputs.get? i = ms.inputs.get? i) ∧
        (∀ i, idx ≤ i → i < j →
          ms'.inputs.get? i = some (some (r.getD (i - idx) 0)))
  | [], idx, j, ms => by intro _ h; cases h
  | v :: r, idx, j, ms => by
      intro hlen h
      by_cases h1 : idx < ms.spec.inputArity ∧ ms.spec.bindOk idx v = true
      · rw [firstFail_cons_ok ms.spec v r idx h1.1 h1.2] at h
        have hj : idx + 1 ≤ j := firstFail_le ms.spec r (idx + 1) j h
        have hlen1 : (ms.inputs.set idx (some v)).length = ms.spec.inputArity := by
          rw [List.length_set]; exact hlen
        obtain ⟨ms', hb, hspec, hout, hl, hlow, hhigh, hmid⟩ :=
          bindLoop_fail r (idx + 1) j
            { ms with inputs := ms.inputs.set idx (some v) } hlen1 h
        refine ⟨ms', ?_, hspec, hout, ?_, ?_, ?_, ?_⟩
        · rw [bindLoop_cons_ok ms v r idx h1.1 h1.2]
          exact hb
        · rw [hl]
          simp [List.length_set]
        · intro i hi
          rw [hlow i (by omega)]
          exact List.get?_set_ne _ _ (by omega)
        · intro i hi
          rw [hhigh i hi]
          exact List.get?_set_ne _ _ (by omega)
        · intro i hi1 hi2
          by_cases hie : i = idx
          · subst hie
            rw [hlow i (by omega)]
            have : i < ms.inputs.length := by omega
            rw [List.get?_set_eq_of_lt _ this]
            simp
          · rw [hmid i (by omega) hi2]
            have hixx : i - idx = (i - (idx + 1)) + 1 := by omega
            rw [hixx, List.getD_cons_succ]
      · rw [firstFail_cons_fail ms.spec v r idx h1] at h
        cases h
        refine ⟨ms, bindLoop_cons_fail ms v r idx h1, rfl, rfl, rfl,
          fun i _ => rfl, fun i _ => rfl, fun i hi1 hi2 => by omega⟩

theorem bindLoop_fail_code :
    ∀ (r : List EValue) (idx : Nat) (ms : MethodState),
      firstFail ms.spec r idx ≠ none →
      (bindLoop ms r idx).1 = Error.err ErrCode.inputBinding
  | [], idx, ms => fun h => absurd rfl h
  | v :: r, idx, ms => fun h => by
      by_cases h1 : idx < ms.spec.inputArity ∧ ms.spec.bindOk idx v = true
      · rw [bindLoop_cons_ok ms v r idx h1.1 h1.2]
        apply bindLoop_fail_code
        rw [firstFail_cons_ok ms.spec v r idx h1.1 h1.2] at h
        exact h
      · rw [bindLoop_cons_fail ms v r idx h1]

theorem bindLoop_spec_eq :
    ∀ (r : List EValue) (idx : Nat) (ms : MethodState),
      ((bindLoop ms r idx).2).spec = ms.spec
  | [], _, _ => rfl
  | v :: r, idx, ms => by
      by_cases h1 : idx < ms.spec.inputArity ∧ ms.spec.bindOk idx v = true
      · rw [bindLoop_cons_ok ms v r idx h1.1 h1.2]
        exact bindLoop_spec_eq r (idx + 1) _
      · rw [bindLoop_cons_fail ms v r idx h1]

theorem firstFail_none_length (spec : MethodSpec) :
    ∀ (r : List EValue) (idx : Nat),
      firstFail spec r idx = none → r = [] ∨ idx + r.length ≤ spec.inputArity
  | [], idx => fun _ => Or.inl rfl
  | v :: r, idx => fun h => by
      by_cases h1 : idx < spec.inputArity ∧ spec.bindOk idx v = true
      · rw [firstFail_cons_ok spec v r idx h1.1 h1.2] at h
        rcases firstFail_none_length spec r (idx + 1) h with hr | hle
        · subst hr
          simp only [List.length_cons, List.length_nil]
          right
          omega
        · right
          simp only [List.length_cons]
          omega
      · rw [firstFail_cons_fail spec v r idx h1] at h
        cases h

theorem allocPlanned_eq_map (sizes : List Nat) :
    ∀ n : Nat,
      allocPlanned sizes n =
        ((List.range n).map (fun i => sizes.getD i 0),
          (List.range n).map (fun i => sizes.getD i 0))
  | 0 => rfl
  | n + 1 => by
      have ih := allocPlanned_eq_map sizes n
      unfold allocPlanned at ih ⊢
      rw [List.range_succ, List.foldl_append, ih]
      simp

theorem map_getD_range (sizes : List Nat) :
    (List.range sizes.length).map (fun i => sizes.getD i 0) = sizes := by
  apply List.ext_get
  · simp
  · intro i h1 h2
    simp only [List.get_map, List.get_range]
    rw [List.getD_eq_get?, List.get?_eq_get h2]
    rfl

theorem allocPlanned_length (sizes : List Nat) :
    allocPlanned sizes sizes.length = (sizes, sizes) := by
  rw [allocPlanned_eq_map sizes sizes.length, map_getD_range]

theorem freshHolder_buffers (spec : MethodSpec) :
    (freshHolder spec).planned_buffers = spec.plannedBufferSizes ∧
    (freshHolder spec).planned_spans = spec.plannedBufferSizes ∧
    (freshHolder spec).planned_memory = spec.plannedBufferSizes := by
  unfold freshHolder
  rw [allocPlanned_length]
  exact ⟨rfl, rfl, rfl⟩

theorem mem_insertName (acc : List String) (x s : String) :
    s ∈ insertName acc x ↔ s ∈ acc ∨ s = x := by
  unfold insertName
  by_cases h : x ∈ acc
  · rw [if_pos h]
    constructor
    · exact Or.inl
    · rintro (hs | hs)
      · exact hs
      · rw [hs]; exact h
  · rw [if_neg h]
    simp

theorem mem_foldl_insertName :
    ∀ (L : List String) (acc : List String) (s : String),
      s ∈ L.foldl insertName acc ↔ s ∈ acc ∨ s ∈ L
  | [], acc, s => by simp
  | x :: L, acc, s => by
      simp only [List.foldl_cons]
      rw [mem_foldl_insertName L (insertName acc x) s, mem_insertName]
      simp only [List.mem_cons]
      tauto

theorem map_nameAt_range (p : ProgramSpec) :
    (List.range p.methods.length).map p.nameAt = p.methods.map Prod.fst := by
  apply List.ext_get
  · simp
  · intro i h1 h2
    simp only [List.get_map, List.get_range, ProgramSpec.nameAt]
    rw [List.get?_eq_get (by simpa using h2)]

theorem mem_collectNames (p : ProgramSpec) (s : String) :
    s ∈ collectNames p ↔ s ∈ p.methods.map Prod.fst := by
  unfold collectNames
  rw [show (fun (acc : List String) i => insertName acc (p.nameAt i)) =
      (fun acc i => insertName acc (p.nameAt i)) from rfl]
  rw [← List.foldl_map p.nameAt insertName (List.range p.methods.length) []]
  rw [mem_foldl_insertName, map_nameAt_range]
  simp

theorem load_method_lookup_ne (env : Env) (name : String) (m : Module)
    (k : String) (hk : k ≠ name) :
    (Module.load_method env name m).2.1.methods.lookup k = m.methods.lookup k := by
  rcases load_method_spec env name m with ⟨h, heq⟩ | ⟨h, ⟨c, h1, h2⟩ | ⟨p, spec, hp, hs, hmx, h1, h2⟩⟩
  · rw [heq]
  · rw [h2]
  · rw [h2, List.lookup]
    have hbe : (k == name) = false := by
      rw [beq_eq_false_iff_ne]
      exact hk
    rw [hbe]

/-! ### Claim theorems -/

/-- C4: `load()` is idempotent — when a program is already set it returns
Ok immediately (emitting only the call event: no accessor construction, no
parse); once any `load()` returned Ok, every later `load()` returns Ok; and
across any operation sequence on one orchestrator instance the storage
accessor is constructed at most once and the program parsed at most
once. -/
theorem C4_load_idempotent :
    (∀ (env : Env) (m : Module), m.is_loaded = true →
      Module.load env m = (Error.ok, m, [Event.loadCalled])) ∧
    (∀ (env : Env) (m : Module), (Module.load env m).1 = Error.ok →
      ∀ env2 : Env,
        Module.load env2 (Module.load env m).2.1 =
          (Error.ok, (Module.load env m).2.1, [Event.loadCalled])) ∧
    (∀ (m : Module) (ops : List Op),
      countEv Event.accessorConstructed (m.runOps ops).2 ≤ 1 ∧
      countEv Event.programParsed (m.runOps ops).2 ≤ 1) := by
  refine ⟨load_loaded, ?_, ?_⟩
  · intro env m h env2
    exact load_loaded env2 _ (load_ok_isLoaded env m h)
  · intro m ops
    constructor
    · have h := runOps_count accessorPot Event.accessorConstructed
        stepOp_count_accessor ops m
      have hp : accessorPot m ≤ 1 := by unfold accessorPot; split <;> omega
      omega
    · have h := runOps_count parsePot Event.programParsed
        stepOp_count_parse ops m
      have hp : parsePot m ≤ 1 := by unfold parsePot; split <;> omega
      omega

/-- Witness for C4 at concrete inputs: a program-injected instance is
loaded, so `load` is a no-op, and a fresh file instance admits at most one
accessor construction and parse across a concrete call sequence. -/
theorem C4_witness :
    Module.load wEnv (Module.fromProgram wProg) =
      (Error.ok, Module.fromProgram wProg, [Event.loadCalled]) ∧
    countEv Event.accessorConstructed
      (wM0.runOps [Op.load wEnv, Op.load wEnv, Op.load wEnvParseFail]).2 ≤ 1 :=
  ⟨C4_load_idempotent.1 wEnv (Module.fromProgram wProg) rfl,
    (C4_load_idempotent.2.2 wM0
      [Op.load wEnv, Op.load wEnv, Op.load wEnvParseFail]).1⟩

/-- C5: `loadMethod(name)` is idempotent per name — when a holder exists
for the name it returns Ok immediately with an empty stage trace (no
metadata lookup, no buffer allocation, no materialization) and unchanged
state; and across any operation sequence at most one holder is ever
created per name. -/
theorem C5_load_method_idempotent :
    (∀ (env : Env) (name : String) (m : Module),
      m.is_method_loaded name = true →
      Module.load_method env name m = (Error.ok, m, [])) ∧
    (∀ (m : Module) (ops : List Op) (name : String),
      countEv (Event.holderCreated name) (m.runOps ops).2 ≤ 1) := by
  refine ⟨load_method_loaded, ?_⟩
  intro m ops name
  have h := runOps_count (holderPot name) (Event.holderCreated name)
    (fun m1 op => stepOp_count_holder m1 op name) ops m
  have hp : holderPot name m ≤ 1 := by unfold holderPot; split <;> omega
  omega

/-- Witness for C5 at concrete inputs: after loading "f" once, loading it
again is a strict no-op, and a concrete operation sequence creates the "f"
holder at most once. -/
theorem C5_witness :
    Module.load_method wEnv "f" wLoaded = (Error.ok, wLoaded, []) ∧
    countEv (Event.holderCreated "f")
      (wM0.runOps [Op.loadMethod wEnv "f", Op.loadMethod wEnv "f",
        Op.execute wEnv "f" [7, 8]]).2 ≤ 1 :=
  ⟨C5_load_method_idempotent.1 wEnv "f" wLoaded rfl,
    C5_load_method_idempotent.2 wM0
      [Op.loadMethod wEnv "f", Op.loadMethod wEnv "f",
        Op.execute wEnv "f" [7, 8]] "f"⟩

/-- C10: in `var_out` the guard `num == 0 || denominator == 0` is taken
exactly when the reduced-element count is zero or `unbiased` holds with
count one; when it is taken every output cell is set to NaN without
consulting the data, and otherwise both divisors are nonzero. -/
theorem C10_var_guard :
    ∀ (unbiased : Bool) (num numel : Nat) (elems : Nat → List ℚ),
      num < 2 ^ 64 →
      (varGuard unbiased num = true ↔
        (num = 0 ∨ (unbiased = true ∧ num = 1))) ∧
      (varGuard unbiased num = true →
        var_out_values unbiased num numel elems = List.replicate numel none) ∧
      (varGuard unbiased num = false →
        num ≠ 0 ∧ varDenominator unbiased num ≠ 0) := by
  intro unbiased num numel elems hnum
  have h64 : (2 : Nat) ^ 64 = 18446744073709551616 := by norm_num
  have hguard : varGuard unbiased num = true ↔
      (num = 0 ∨ (unbiased = true ∧ num = 1)) := by
    unfold varGuard varDenominator
    cases unbiased with
    | false => simp
    | true =>
      rw [h64] at hnum ⊢
      simp only [Bool.or_eq_true, beq_iff_eq, eq_self_iff_true, true_and,
        if_true]
      omega
  refine ⟨hguard, ?_, ?_⟩
  · intro hg
    unfold var_out_values
    rw [if_pos hg]
    simp [List.map_const']
  · intro hg
    unfold varGuard at hg
    simp only [Bool.or_eq_false_iff, beq_eq_false_iff_ne] at hg
    exact hg

/-- Witness for C10 at concrete inputs: `unbiased = true, num = 1` takes
the guard and yields all-NaN output cells. -/
theorem C10_witness :
    varGuard true 1 = true ∧
    var_out_values true 1 2 (fun _ => [(5 : ℚ)]) = List.replicate 2 none ∧
    varGuard false 3 = false ∧ 3 ≠ 0 ∧ varDenominator false 3 ≠ 0 := by
  have h1 := C10_var_guard true 1 2 (fun _ => [(5 : ℚ)]) (by norm_num)
  have hg : varGuard true 1 = true := h1.1.mpr (Or.inr ⟨rfl, rfl⟩)
  have h2 := C10_var_guard false 3 2 (fun _ => [(5 : ℚ)]) (by norm_num)
  have hg2 : varGuard false 3 = false := by
    rcases hb : varGuard false 3 with _ | _
    · rfl
    · rcases h2.1.mp hb with h | ⟨h, _⟩
      · cases h
      · cases h
  exact ⟨hg, h1.2.1 hg, hg2, by omega, (h2.2.2 hg2).2⟩

/-- C3: a failing `loadMethod(name)` inserts no cache entry — the method
map is untouched and `isMethodLoaded(name)` is false afterwards — and on a
state without a holder for `name` a succeeding `loadMethod(name)` inserts
the holder built from the method's looked-up metadata. -/
theorem C3_load_method_failure :
    ∀ (env : Env) (name : String) (m : Module),
      (∀ c, (Module.load_method env name m).1 = Error.err c →
        (Module.load_method env name m).2.1.methods = m.methods ∧
        (Module.load_method env name m).2.1.is_method_loaded name = false) ∧
      (m.is_method_loaded name = false →
        (Module.load_method env name m).1 = Error.ok →
        ∃ p spec,
          (Module.load env m).2.1.program = some p ∧
          p.lookup name = some spec ∧
          (Module.load_method env name m).2.1.methods.lookup name =
            some (freshHolder spec) ∧
          (Module.load_method env name m).2.1.is_method_loaded name = true) := by
  intro env name m
  constructor
  · intro c hc
    rcases load_method_spec env name m with ⟨hl, heq⟩ |
      ⟨hnl, ⟨c', h1, h2⟩ | ⟨p, spec, hp, hs, hmx, h1, h2⟩⟩
    · rw [heq] at hc
      exact Error.noConfusion hc
    · refine ⟨h2, ?_⟩
      show ((Module.load_method env name m).2.1.methods.lookup name).isSome = false
      rw [h2]
      exact hnl
    · exact Error.noConfusion (h1.symm.trans hc)
  · intro hnl hok
    rcases load_method_spec env name m with ⟨hl, heq⟩ |
      ⟨hnl', ⟨c, h1, h2⟩ | ⟨p, spec, hp, hs, hmx, h1, h2⟩⟩
    · rw [hl] at hnl
      exact Bool.noConfusion hnl
    · exact Error.noConfusion (hok.symm.trans h1)
    · refine ⟨p, spec, hp, hs, ?_, ?_⟩
      · rw [h2, List.lookup, beq_self_eq_true]
      · show ((Module.load_method env name m).2.1.methods.lookup name).isSome = true
        rw [h2, List.lookup, beq_self_eq_true]
        rfl

/-- Witness for C3 at concrete inputs: with a failing parse, loading "f"
fails and leaves the cache empty; on the resulting state a succeeding call
inserts a fresh holder for "f". -/
theorem C3_witness :
    (Module.load_method wEnvParseFail "f" wM0).2.1.methods = wM0.methods ∧
    (Module.load_method wEnvParseFail "f" wM0).2.1.is_method_loaded "f" =
      false ∧
    ∃ p spec,
      (Module.load wEnv wM0).2.1.program = some p ∧
      p.lookup "f" = some spec ∧
      (Module.load_method wEnv "f" wM0).2.1.methods.lookup "f" =
        some (freshHolder spec) ∧
      (Module.load_method wEnv "f" wM0).2.1.is_method_loaded "f" = true :=
  ⟨((C3_load_method_failure wEnvParseFail "f" wM0).1 (ErrCode.other 7) rfl).1,
    ((C3_load_method_failure wEnvParseFail "f" wM0).1 (ErrCode.other 7) rfl).2,
    (C3_load_method_failure wEnv "f" wM0).2 rfl rfl⟩

/-- C6: a successful fresh `loadMethod` realizes the plan exactly — the
holder's buffer list and the span list handed to the hierarchical allocator
are exactly the plan's declared sizes in plan order, whatever the rest of
the method's behavior is, and the materialized method starts fresh. -/
theorem C6_planned_buffers :
    ∀ (env : Env) (name : String) (m : Module) (p : ProgramSpec)
      (spec : MethodSpec),
      m.is_method_loaded name = false →
      (Module.load_method env name m).1 = Error.ok →
      (Module.load env m).2.1.program = some p →
      p.lookup name = some spec →
      ∃ holder,
        (Module.load_method env name m).2.1.methods.lookup name =
          some holder ∧
        holder.planned_buffers = spec.plannedBufferSizes ∧
        holder.planned_spans = spec.plannedBufferSizes ∧
        holder.planned_memory = spec.plannedBufferSizes ∧
        holder.method = MethodState.fresh spec := by
  intro env name m p spec hnl hok hp hs
  rcases load_method_spec env name m with ⟨hl, heq⟩ |
    ⟨hnl', ⟨c, h1, h2⟩ | ⟨p', spec', hp', hs', hmx, h1, h2⟩⟩
  · rw [hl] at hnl
    exact Bool.noConfusion hnl
  · exact Error.noConfusion (hok.symm.trans h1)
  · have hpp : p' = p := Option.some.inj (hp'.symm.trans hp)
    rw [hpp] at hs'
    have hss : spec' = spec := Option.some.inj (hs'.symm.trans hs)
    rw [hss] at h2
    refine ⟨freshHolder spec, ?_, (freshHolder_buffers spec).1,
      (freshHolder_buffers spec).2.1, (freshHolder_buffers spec).2.2, rfl⟩
    rw [h2, List.lookup, beq_self_eq_true]

/-- Witness for C6 at concrete inputs: loading "f" realizes exactly the
two planned buffers of 128 and 256 bytes. -/
theorem C6_witness :
    ∃ holder,
      (Module.load_method wEnv "f" wM0).2.1.methods.lookup "f" =
        some holder ∧
      holder.planned_buffers = [128, 256] ∧
      holder.planned_spans = [128, 256] ∧
      holder.planned_memory = [128, 256] ∧
      holder.method = MethodState.fresh wSpecF :=
  C6_planned_buffers wEnv "f" wM0 wProg wSpecF rfl rfl rfl rfl

/-- C8: a fresh file-backed instance is not loaded; `methodNames()` makes
exactly one `load()` attempt, fails with exactly the error `load()` fails
with, and on success returns exactly the set of names of the program's
methods enumerated by index (order and duplicates ignored). -/
theorem C8_method_names :
    (∀ mode, (Module.fromFile mode).is_loaded = false) ∧
    (∀ (env : Env) (m : Module),
      countEv Event.loadCalled (Module.method_names env m).2.2 = 1) ∧
    (∀ (env : Env) (m : Module) (c : ErrCode),
      (Module.method_names env m).1 = Except.error c ↔
        (Module.load env m).1 = Error.err c) ∧
    (∀ (env : Env) (m : Module) (names : List String),
      (Module.method_names env m).1 = Except.ok names →
      ∃ p, (Module.method_names env m).2.1.program = some p ∧
        ∀ s, s ∈ names ↔ s ∈ p.methods.map Prod.fst) := by
  refine ⟨fun mode => rfl, ?_, ?_, ?_⟩
  · intro env m
    have h := method_names_parts env m
    show countEv _ (Module.method_names env m).2.2 = 1
    rw [congrArg Prod.snd h]
    exact load_count_loadCalled env m
  · intro env m c
    unfold Module.method_names
    split
    · next c' m1 ev heq =>
      rw [heq]
      simp
    · next m1 ev heq =>
      have hld : m1.is_loaded = true := by
        have := load_ok_isLoaded env m (by rw [heq])
        rw [heq] at this
        exact this
      split
      · next hp =>
        unfold Module.is_loaded at hld
        rw [hp] at hld
        exact Bool.noConfusion hld
      · next p hp =>
        rw [heq]
        simp
  · intro env m names h
    unfold Module.method_names at h ⊢
    split at h
    · exact Except.noConfusion h
    · next m1 ev heq =>
      split at h
      · exact Except.noConfusion h
      · next p hp =>
        have hko : (Except.ok (collectNames p) :
            Except ErrCode (List String)) = Except.ok names := h
        have hn : collectNames p = names := Except.ok.inj hko
        subst hn
        exact ⟨p, hp, fun s => mem_collectNames p s⟩

/-- Witness for C8 at concrete inputs: the fresh instance is unloaded and
`methodNames` on it returns exactly the names of `wProg`. -/
theorem C8_witness :
    (Module.fromFile LoadMode.Mmap).is_loaded = false ∧
    countEv Event.loadCalled (Module.method_names wEnv wM0).2.2 = 1 ∧
    ∃ p, (Module.method_names wEnv wM0).2.1.program = some p ∧
      ∀ s, s ∈ collectNames wProg ↔ s ∈ p.methods.map Prod.fst :=
  ⟨C8_method_names.1 LoadMode.Mmap, C8_method_names.2.1 wEnv wM0,
    C8_method_names.2.2.2 wEnv wM0 (collectNames wProg) rfl⟩

/-- C9: `setOutputDataPtr(tensor, index)` targets only the method literally
named "forward": a failing `loadMethod("forward")` is propagated verbatim;
on success with an in-range index the "forward" method's output slot at the
index is rebound to the tensor's data pointer and byte length, and every
cache entry other than "forward" is untouched. -/
theorem C9_set_output_data_ptr :
    ∀ (env : Env) (t : Tensor) (idx : Nat) (m : Module),
      (∀ c, (Module.load_method env "forward" m).1 = Error.err c →
        (Module.set_output_data_ptr env t idx m).1 = Error.err c) ∧
      (∀ holder,
        (Module.load_method env "forward" m).1 = Error.ok →
        (Module.load_method env "forward" m).2.1.methods.lookup "forward" =
          some holder →
        idx < holder.method.spec.outputArity →
        (Module.set_output_data_ptr env t idx m).1 = Error.ok ∧
        (Module.set_output_data_ptr env t idx m).2.1.methods.lookup
            "forward" =
          some { holder with method :=
            { holder.method with outputPtrs :=
                (holder.method.outputPtrs.set idx
                  (some (t.dataPtr, t.nbytes))) } }) ∧
      (∀ k, k ≠ "forward" →
        (Module.set_output_data_ptr env t idx m).2.1.methods.lookup k =
          m.methods.lookup k) := by
  intro env t idx m
  refine ⟨?_, ?_, ?_⟩
  · intro c hc
    unfold Module.set_output_data_ptr
    split
    · next c' m1 ev heq =>
      rw [heq] at hc
      exact hc
    · next m1 ev heq =>
      rw [heq] at hc
      exact Error.noConfusion hc
  · intro holder h1 h2 h3
    unfold Module.set_output_data_ptr
    split
    · next c' m1 ev heq =>
      rw [heq] at h1
      exact Error.noConfusion h1
    · next m1 ev heq =>
      rw [heq] at h2
      split
      · next heqL =>
        exact Option.noConfusion (heqL.symm.trans h2)
      · next holder' heqL =>
        have hh : holder' = holder := Option.some.inj (heqL.symm.trans h2)
        subst hh
        split
        · next r ms1 hso =>
          unfold MethodState.set_output_data_ptr at hso
          rw [if_pos h3] at hso
          injection hso with hr hms
          subst hr
          subst hms
          refine ⟨rfl, ?_⟩
          show (List.lookup "forward"
            (updateEntry "forward" _ m1.methods)) = _
          rw [lookup_updateEntry_self, h2]
          rfl
  · intro k hk
    have hlm := load_method_lookup_ne env "forward" m k hk
    unfold Module.set_output_data_ptr
    split
    · next c' m1 ev heq =>
      rw [heq] at hlm
      exact hlm
    · next m1 ev heq =>
      rw [heq] at hlm
      split
      · exact hlm
      · next holder' heqL =>
        split
        · next r ms1 hso =>
          show (List.lookup k (updateEntry "forward" ms1 m1.methods)) = _
          rw [lookup_updateEntry_ne "forward" ms1 k hk]
          exact hlm

/-- Witness for C9 at concrete inputs: rebinding output slot 0 of
"forward" to a tensor at pointer 100 with 16 bytes. -/
theorem C9_witness :
    (Module.set_output_data_ptr wEnv ⟨100, 16⟩ 0 wM0).1 = Error.ok ∧
    (Module.set_output_data_ptr wEnv ⟨100, 16⟩ 0 wM0).2.1.methods.lookup
        "forward" =
      some { freshHolder wSpecF with method :=
        { (freshHolder wSpecF).method with outputPtrs :=
            ((freshHolder wSpecF).method.outputPtrs.set 0
              (some (100, 16))) } } :=
  (C9_set_output_data_ptr wEnv ⟨100, 16⟩ 0 wM0).2.1 (freshHolder wSpecF)
    rfl rfl (by decide)

/-- C1: `execute(name, inputs)` returns outputs only if loading the method,
binding every supplied input in order, running, and collecting outputs all
succeeded; the first failing stage's error is returned verbatim with no
outputs; and a bind failure at offset `j` leaves the inputs bound at
offsets below `j` freshly bound on the cached method (no rollback) while
the slots at and above `j` keep their previous contents. -/
theorem C1_execute_pipeline :
    ∀ (env : Env) (name : String) (input : List EValue) (m : Module),
      (∀ outs, (Module.execute env name input m).1 = Except.ok outs →
        (Module.load_method env name m).1 = Error.ok ∧
        ∃ holder,
          (Module.load_method env name m).2.1.methods.lookup name =
            some holder ∧
          firstFail holder.method.spec input 0 = none ∧
          holder.method.spec.runErr = none ∧
          holder.method.spec.getOutputsErr = none) ∧
      (∀ c, (Module.load_method env name m).1 = Error.err c →
        (Module.execute env name input m).1 = Except.error c) ∧
      (∀ holder j,
        (Module.load_method env name m).1 = Error.ok →
        (Module.load_method env name m).2.1.methods.lookup name =
          some holder →
        holder.method.inputs.length = holder.method.spec.inputArity →
        firstFail holder.method.spec input 0 = some j →
        (Module.execute env name input m).1 =
          Except.error ErrCode.inputBinding ∧
        ∃ holder',
          (Module.execute env name input m).2.1.methods.lookup name =
            some holder' ∧
          (∀ i, i < j →
            holder'.method.inputs.get? i = some (some (input.getD i 0))) ∧
          (∀ i, j ≤ i →
            holder'.method.inputs.get? i = holder.method.inputs.get? i)) ∧
      (∀ holder c,
        (Module.load_method env name m).1 = Error.ok →
        (Module.load_method env name m).2.1.methods.lookup name =
          some holder →
        firstFail holder.method.spec input 0 = none →
        holder.method.spec.runErr = some c →
        (Module.execute env name input m).1 = Except.error c) ∧
      (∀ holder c,
        (Module.load_method env name m).1 = Error.ok →
        (Module.load_method env name m).2.1.methods.lookup name =
          some holder →
        firstFail holder.method.spec input 0 = none →
        holder.method.spec.runErr = none →
        holder.method.spec.getOutputsErr = some c →
        (Module.execute env name input m).1 = Except.error c) := by
  intro env name input m
  refine ⟨?_, ?_, ?_, ?_, ?_⟩
  · intro outs h
    unfold Module.execute at h
    split at h
    · exact Except.noConfusion h
    · next m1 ev heq =>
      split at h
      · exact Except.noConfusion h
      · next holder heqL =>
        split at h
        · exact Except.noConfusion h
        · next ms1 hb =>
          split at h
          · exact Except.noConfusion h
          · next hr =>
            split at h
            · exact Except.noConfusion h
            · next hg =>
              have hsp : ms1.spec = holder.method.spec := by
                have := bindLoop_spec_eq input 0 holder.method
                rw [hb] at this
                exact this
              refine ⟨by rw [heq], holder, by rw [heq]; exact heqL, ?_, ?_, ?_⟩
              · exact (bindLoop_ok_iff input 0 holder.method).mp (by rw [hb])
              · rw [← hsp]; exact hr
              · rw [← hsp]; exact hg
  · intro c hc
    unfold Module.execute
    split
    · next c' m1 ev heq =>
      rw [heq] at hc
      injection hc with hcc
      rw [hcc]
    · next m1 ev heq =>
      rw [heq] at hc
      exact Error.noConfusion hc
  · intro holder j h1 h2 hlen hff
    obtain ⟨ms', hbl, hspec, hout, hl, hlow, hhigh, hmid⟩ :=
      bindLoop_fail input 0 j holder.method hlen hff
    unfold Module.execute
    split
    · next c' m1 ev heq =>
      rw [heq] at h1
      exact Error.noConfusion h1
    · next m1 ev heq =>
      rw [heq] at h2
      split
      · next heqL =>
        exact Option.noConfusion (heqL.symm.trans h2)
      · next holder'' heqL =>
        have hh : holder'' = holder := Option.some.inj (heqL.symm.trans h2)
        subst hh
        split
        · next c' ms1 hbm =>
          have hpair : (Error.err c', ms1) =
              (Error.err ErrCode.inputBinding, ms') := hbm.symm.trans hbl
          injection hpair with hp1 hp2
          injection hp1 with hp1c
          subst hp1c
          subst hp2
          refine ⟨rfl, { holder'' with method := ms1 }, ?_, ?_, ?_⟩
          · show (List.lookup name (updateEntry name ms1 m1.methods)) = _
            rw [lookup_updateEntry_self, h2]
            rfl
          · intro i hi
            have := hmid i (Nat.zero_le i) hi
            simpa using this
          · intro i hi
            exact hhigh i hi
        · next ms1 hbm =>
          have : (Error.ok, ms1) = (Error.err ErrCode.inputBinding, ms') :=
            hbm.symm.trans hbl
          injection this with hp1 _
          exact Error.noConfusion hp1
  · intro holder c h1 h2 hff hr
    unfold Module.execute
    split
    · next c' m1 ev heq =>
      rw [heq] at h1
      exact Error.noConfusion h1
    · next m1 ev heq =>
      rw [heq] at h2
      split
      · next heqL =>
        exact Option.noConfusion (heqL.symm.trans h2)
      · next holder'' heqL =>
        have hh : holder'' = holder := Option.some.inj (heqL.symm.trans h2)
        subst hh
        split
        · next c' ms1 hbm =>
          have hok : (bindLoop holder''.method input 0).1 = Error.ok :=
            (bindLoop_ok_iff input 0 holder''.method).mpr hff
          rw [hbm] at hok
          exact Error.noConfusion hok
        · next ms1 hbm =>
          have hsp : ms1.spec = holder''.method.spec := by
            have := bindLoop_spec_eq input 0 holder''.method
            rw [hbm] at this
            exact this
          split
          · next c'' hr' =>
            rw [hsp, hr] at hr'
            have := Option.some.inj hr'
            rw [this]
          · next hr' =>
            rw [hsp, hr] at hr'
            exact Option.noConfusion hr'
  · intro holder c h1 h2 hff hr hg
    unfold Module.execute
    split
    · next c' m1 ev heq =>
      rw [heq] at h1
      exact Error.noConfusion h1
    · next m1 ev heq =>
      rw [heq] at h2
      split
      · next heqL =>
        exact Option.noConfusion (heqL.symm.trans h2)
      · next holder'' heqL =>
        have hh : holder'' = holder := Option.some.inj (heqL.symm.trans h2)
        subst hh
        split
        · next c' ms1 hbm =>
          have hok : (bindLoop holder''.method input 0).1 = Error.ok :=
            (bindLoop_ok_iff input 0 holder''.method).mpr hff
          rw [hbm] at hok
          exact Error.noConfusion hok
        · next ms1 hbm =>
          have hsp : ms1.spec = holder''.method.spec := by
            have := bindLoop_spec_eq input 0 holder''.method
            rw [hbm] at this
            exact this
          split
          · next c'' hr' =>
            rw [hsp, hr] at hr'
            exact Option.noConfusion hr'
          · next hr' =>
            split
            · next c'' hg' =>
              rw [hsp, hg] at hg'
              have := Option.some.inj hg'
              rw [this]
            · next hg' =>
              rw [hsp, hg] at hg'
              exact Option.noConfusion hg'

/-- Witness for C1 at concrete inputs: on method "g" (bind succeeds only
at slot 0) executing with three inputs fails with an `InputBindingError`
and leaves slot 0 freshly bound. -/
theorem C1_witness :
    (Module.execute wEnv "g" [1, 2, 3] wM0).1 =
      Except.error ErrCode.inputBinding ∧
    ∃ holder',
      (Module.execute wEnv "g" [1, 2, 3] wM0).2.1.methods.lookup "g" =
        some holder' ∧
      (∀ i, i < 1 →
        holder'.method.inputs.get? i = some (some ([1, 2, 3].getD i 0))) ∧
      (∀ i, 1 ≤ i →
        holder'.method.inputs.get? i =
          (freshHolder wSpecG).method.inputs.get? i) :=
  (C1_execute_pipeline wEnv "g" [1, 2, 3] wM0).2.2.1
    (freshHolder wSpecG) 1 rfl rfl rfl rfl

/-- The claim that fewer-than-arity inputs yield an `InputBindingError` is
false: the binding loop of module.cpp:182-184 iterates only over the
supplied inputs and performs no arity check, so on a loaded two-input
method an `execute` with one input binds the prefix, runs, and returns
outputs. -/
theorem C2_counterexample :
    wLoaded.is_method_loaded "f" = true ∧
    (wLoaded.methods.lookup "f").map
      (fun h => h.method.spec.inputArity) = some 2 ∧
    (Module.execute wEnv "f" [7] wLoaded).1 = Except.ok [42] :=
  ⟨rfl, rfl, rfl⟩

/-- C2 amended: supplying strictly more inputs than the declared arity K
always yields an `InputBindingError` (the loop reaches an out-of-range
slot, or an earlier bind already failed with a binding error); supplying
strictly fewer performs no arity check — the supplied prefix is bound and
the method is run, returning outputs when the remaining stages succeed. -/
theorem C2_arity_amended :
    ∀ (env : Env) (name : String) (input : List EValue) (m : Module)
      (holder : MethodHolder),
      (Module.load_method env name m).1 = Error.ok →
      (Module.load_method env name m).2.1.methods.lookup name =
        some holder →
      (input.length > holder.method.spec.inputArity →
        (Module.execute env name input m).1 =
          Except.error ErrCode.inputBinding) ∧
      (input.length < holder.method.spec.inputArity →
        firstFail holder.method.spec input 0 = none →
        holder.method.spec.runErr = none →
        holder.method.spec.getOutputsErr = none →
        ∃ outs, (Module.execute env name input m).1 = Except.ok outs) := by
  intro env name input m holder h1 h2
  constructor
  · intro hgt
    have hff : firstFail holder.method.spec input 0 ≠ none := by
      intro hn
      rcases firstFail_none_length holder.method.spec input 0 hn with he | hle
      · rw [he] at hgt
        simp at hgt
      · omega
    unfold Module.execute
    split
    · next c' m1 ev heq =>
      rw [heq] at h1
      exact Error.noConfusion h1
    · next m1 ev heq =>
      rw [heq] at h2
      split
      · next heqL =>
        exact Option.noConfusion (heqL.symm.trans h2)
      · next holder'' heqL =>
        have hh : holder'' = holder := Option.some.inj (heqL.symm.trans h2)
        subst hh
        split
        · next c' ms1 hbm =>
          have := bindLoop_fail_code input 0 holder''.method hff
          rw [hbm] at this
          injection this with hcc
          rw [hcc]
        · next ms1 hbm =>
          have := bindLoop_fail_code input 0 holder''.method hff
          rw [hbm] at this
          exact Error.noConfusion this
  · intro hlt hff hr hg
    unfold Module.execute
    split
    · next c' m1 ev heq =>
      rw [heq] at h1
      exact Error.noConfusion h1
    · next m1 ev heq =>
      rw [heq] at h2
      split
      · next heqL =>
        exact Option.noConfusion (heqL.symm.trans h2)
      · next holder'' heqL =>
        have hh : holder'' = holder := Option.some.inj (heqL.symm.trans h2)
        subst hh
        split
        · next c' ms1 hbm =>
          have hok : (bindLoop holder''.method input 0).1 = Error.ok :=
            (bindLoop_ok_iff input 0 holder''.method).mpr hff
          rw [hbm] at hok
          exact Error.noConfusion hok
        · next ms1 hbm =>
          have hsp : ms1.spec = holder''.method.spec := by
            have := bindLoop_spec_eq input 0 holder''.method
            rw [hbm] at this
            exact this
          split
          · next c'' hr' =>
            rw [hsp, hr] at hr'
            exact Option.noConfusion hr'
          · next hr' =>
            split
            · next c'' hg' =>
              rw [hsp, hg] at hg'
              exact Option.noConfusion hg'
            · next hg' =>
              exact ⟨_, rfl⟩

/-- Witness for the amended C2 at concrete inputs: three inputs on the
two-input method "f" fail with an `InputBindingError`. -/
theorem C2_witness :
    (Module.execute wEnv "f" [1, 2, 3] wM0).1 =
      Except.error ErrCode.inputBinding :=
  ((C2_arity_amended wEnv "f" [1, 2, 3] wM0 (freshHolder wSpecF)
    rfl rfl).1 (by decide))

/-- C7: a successful `execute` returns an output sequence built per call
(the orchestrator caches no outputs): its length is the method's declared
output arity and each slot holds the method's output value for that slot
as a function of the currently bound inputs. -/
theorem C7_outputs :
    ∀ (env : Env) (name : String) (input : List EValue) (m : Module)
      (outs : List EValue),
      (Module.execute env name input m).1 = Except.ok outs →
      ∃ holder',
        (Module.execute env name input m).2.1.methods.lookup name =
          some holder' ∧
        outs.length = holder'.method.spec.outputArity ∧
        outs = (List.range holder'.method.spec.outputArity).map
          (holder'.method.spec.outVal holder'.method.inputs) := by
  intro env name input m outs h
  unfold Module.execute at h ⊢
  split at h
  · exact Except.noConfusion h
  · next m1 ev heq =>
    split at h
    · exact Except.noConfusion h
    · next holder heqL =>
      split at h
      · exact Except.noConfusion h
      · next ms1 hb =>
        split at h
        · exact Except.noConfusion h
        · next hr =>
          split at h
          · exact Except.noConfusion h
          · next hg =>
            have hko : (Except.ok ((List.range ms1.spec.outputArity).map
                (ms1.spec.outVal ms1.inputs)) :
                Except ErrCode (List EValue)) = Except.ok outs := h
            have hn := Except.ok.inj hko
            refine ⟨{ holder with method := ms1 }, ?_, ?_, ?_⟩
            · show (List.lookup name (updateEntry name ms1 m1.methods)) = _
              rw [lookup_updateEntry_self, heqL]
              rfl
            · rw [← hn]
              simp
            · exact hn.symm

/-- Witness for C7 at concrete inputs: executing "f" with two inputs
returns the single declared output. -/
theorem C7_witness :
    ∃ holder',
      (Module.execute wEnv "f" [7, 8] wM0).2.1.methods.lookup "f" =
        some holder' ∧
      ([42] : List EValue).length = holder'.method.spec.outputArity ∧
      ([42] : List EValue) = (List.range holder'.method.spec.outputArity).map
        (holder'.method.spec.outVal holder'.method.inputs) :=
  C7_outputs wEnv "f" [7, 8] wM0 [42] rfl

end ET
